import Mathlib

/-!
Formal model of the `arranger` audio_server core, shallowly embedded from
`src/audio_server`. C++ `double`/`float` values (beats, sample values,
control values) are modelled as exact rationals (`ℚ`): every code path
verified here only copies, compares, adds, multiplies or divides them, so
the rational model is faithful to the real-number reading of the code.
Machine containers (`std::vector`) are modelled as `List`, `std::atomic<T>`
as plain fields of the state records (the claims under study are about the
sequential semantics of each operation), and nullable pointers as `Option`.
-/

/- ===================================================================
   Scheduler (src/audio_server/src/scheduler.cpp, include/scheduler.h)
   =================================================================== -/

/-- Event types, mirroring `enum class EventType` in scheduler.h. -/
inductive EventType where
  | noteOn
  | noteOff
  | program
  | volume
  | bend
  | control
deriving DecidableEq, Repr

/-- `struct SchedEvent` (scheduler.h:28-36). `beat` is a C++ double,
`value` a float; both modelled as `ℚ`. -/
structure SchedEvent where
  beat : ℚ
  etype : EventType
  channel : ℕ
  pitch : ℕ
  velocity : ℕ
  value : ℚ
  node_id : String
deriving DecidableEq, Repr

/-- The `priority` lambda inside `Schedule::from_json` (scheduler.cpp:54-64):
NoteOff ↦ 0; Bend, Program, Volume, Control ↦ 1; NoteOn ↦ 2. (The C++
`default:` branch returning 1 is unreachable: all six enumerators are
listed.) -/
def typePriority : EventType → ℤ
  | .noteOff => 0
  | .bend => 1
  | .program => 1
  | .volume => 1
  | .control => 1
  | .noteOn => 2

/-- The `std::stable_sort` comparator in `Schedule::from_json`
(scheduler.cpp:66-70): beats first, then type priority. -/
def schedCmp (a b : SchedEvent) : Bool :=
  if a.beat ≠ b.beat then decide (a.beat < b.beat)
  else decide (typePriority a.etype < typePriority b.etype)

/-- The non-strict order induced by `schedCmp`: `a` may stay before `b`
exactly when `¬ schedCmp b a`. `List.mergeSort` with this relation is the
standard model of `std::stable_sort` with comparator `schedCmp` (both are
characterised as the unique stable, `schedLE`-sorted permutation). -/
def schedLE (a b : SchedEvent) : Bool := !(schedCmp b a)

/-- Event-type string parsing in `Schedule::from_json` (scheduler.cpp:37-47);
an unknown string aborts the whole batch. -/
def parseEventType (s : String) : Option EventType :=
  if s = "note_on" then some .noteOn
  else if s = "note_off" then some .noteOff
  else if s = "program" then some .program
  else if s = "volume" then some .volume
  else if s = "bend" then some .bend
  else if s = "control" then some .control
  else none

/-- One JSON event record as decoded from the batch (scheduler.cpp:23-30),
before type parsing and beat clamping. -/
structure RawEvent where
  beat : ℚ
  etype : String
  channel : ℕ
  pitch : ℕ
  velocity : ℕ
  value : ℚ
  node_id : String
deriving DecidableEq, Repr

/-- Per-event work of the `Schedule::from_json` loop (scheduler.cpp:23-51):
decode the type (failing on unknown strings) and clamp negative beats
to 0. -/
def parseEvent (r : RawEvent) : Option SchedEvent :=
  (parseEventType r.etype).map fun t =>
    { beat := if r.beat < 0 then 0 else r.beat
      etype := t
      channel := r.channel
      pitch := r.pitch
      velocity := r.velocity
      value := r.value
      node_id := r.node_id }

/-- `class Schedule` (scheduler.h:42-58): sorted events plus
`total_length_` (max clamped beat, starting from 0.0). -/
structure Schedule where
  events : List SchedEvent
  total_length : ℚ
deriving DecidableEq, Repr

/-- `Schedule::from_json` (scheduler.cpp:13-73): parse every event
(aborting on an unknown type), record the running maximum of the clamped
beats, and stable-sort by `(beat, typePriority)`. -/
def scheduleFromJson (raws : List RawEvent) : Option Schedule :=
  (raws.mapM parseEvent).map fun evts =>
    { events := evts.mergeSort schedLE
      total_length := evts.foldl (fun m e => max m e.beat) 0 }

/-- `effective_beat` in `Dispatcher::dispatch` (scheduler.cpp:105): negative
beats are treated as 0. -/
def effectiveBeat (e : SchedEvent) : ℚ := if e.beat < 0 then 0 else e.beat

/-- One `Dispatcher::dispatch(start_beat, end_beat, graph)` call
(scheduler.cpp:97-134), acting on the suffix of the current schedule that
starts at the cursor `idx_`. `resolves id` models
`graph->find_node(id) != nullptr`. Returns the events delivered to nodes
(in delivery order) and the remaining suffix (the new cursor position):
the loop walks events while `effective_beat < end_beat`, delivering those
with `effective_beat >= start_beat` whose node resolves, and always
advances the cursor. -/
def dispatchEvents (resolves : String → Bool) (startB endB : ℚ) :
    List SchedEvent → List SchedEvent × List SchedEvent
  | [] => ([], [])
  | e :: rest =>
    if effectiveBeat e < endB then
      let p := dispatchEvents resolves startB endB rest
      (if decide (startB ≤ effectiveBeat e) && resolves e.node_id then e :: p.1 else p.1,
       p.2)
    else ([], e :: rest)

/-- A run of `dispatch` calls over consecutive block boundaries
`start, b₁, b₂, …`: block `i` covers `[bᵢ₋₁, bᵢ)`. Returns all delivered
events in delivery order, and the final cursor suffix. -/
def dispatchBlocks (resolves : String → Bool) :
    ℚ → List ℚ → List SchedEvent → List SchedEvent × List SchedEvent
  | _, [], evts => ([], evts)
  | startB, b :: bs, evts =>
    let p := dispatchEvents resolves startB b evts
    let q := dispatchBlocks resolves b bs p.2
    (p.1 ++ q.1, q.2)

/-- `class Dispatcher` state (scheduler.h:85-90): the pending atomic slot,
the current schedule and the cursor. -/
structure Dispatcher where
  pending : Option Schedule
  current : Option Schedule
  idx : ℕ
deriving DecidableEq, Repr

/-- `Dispatcher::reindex(beat)` (scheduler.cpp:145-154): the index of the
first event with `beat' >= beat`, or the event count when none. -/
def reindexIdx (sched : Option Schedule) (beat : ℚ) : ℕ :=
  match sched with
  | none => 0
  | some s =>
    match s.events.findIdx? (fun e => decide (beat ≤ e.beat)) with
    | some i => i
    | none => s.events.length

/-- `Dispatcher::check_pending` (scheduler.cpp:85-95): atomically take the
pending schedule; if absent return `false` unchanged, otherwise install it
as current (the old current is deleted), reset the cursor via
`reindex(0.0)`, and return `true`. -/
def checkPending (d : Dispatcher) : Dispatcher × Bool :=
  match d.pending with
  | none => ({ d with pending := none }, false)
  | some p =>
    ({ pending := none
       current := some p
       idx := reindexIdx (some p) 0 }, true)

/- ===================================================================
   Plugin adapter (src/audio_server/src/plugin_adapter.cpp,
   include/plugin_adapter.h)
   =================================================================== -/

/-- `enum class PluginPortType` (plugin_api.h). -/
inductive PluginPortType where
  | audioMono
  | audioStereo
  | control
  | event
deriving DecidableEq, Repr

/-- One descriptor port as seen by the adapter: its type, whether the role
is Output/Monitor (`is_out` in plugin_adapter.cpp:199-200), and the control
default. Only the fields the adapter walks read are kept. -/
structure PluginPort where
  ptype : PluginPortType
  is_output : Bool
  default_value : ℚ
deriving DecidableEq, Repr

/-- `struct ControlPortMapping` (plugin_adapter.h:87-103): the per-control-
port pending atomic and flag. (`is_connected` also exists in the header,
documented as giving connected ports graph-value priority, but
plugin_adapter.cpp never reads it and `set_control_connected` is declared
yet never defined or called; it is therefore not part of the executable
state.) -/
structure ControlPortMapping where
  plugin_port_id : String
  is_output : Bool
  pending_value : ℚ
  has_pending : Bool
deriving DecidableEq, Repr

/-- The control-value wiring of `PluginAdapterNode::process`
(plugin_adapter.cpp:195-253): walk the descriptor ports in order, keeping
the running input-slot counter `in_i` (audio-mono input consumes one slot,
audio-stereo two, control input one; outputs and event ports consume
none), and for every control input port compute the value fed to the
plugin: `cb.value = inputs[in_i].control`, then overridden by the pending
atomic whenever `has_pending` (plugin_adapter.cpp:239-244). `inputs`
models the `.control` field of each input-slot `PortBuffer` handed over by
the graph; `cmap` is `control_map_`, advanced once per control port.
Returns the fed values of the control input ports in port order. -/
def fedControlValues : List PluginPort → List ControlPortMapping → List ℚ → List ℚ
  | [], _, _ => []
  | p :: ps, cmap, inputs =>
    match p.ptype with
    | .audioMono =>
      if p.is_output then fedControlValues ps cmap inputs
      else fedControlValues ps cmap (inputs.drop 1)
    | .audioStereo =>
      if p.is_output then fedControlValues ps cmap inputs
      else fedControlValues ps cmap (inputs.drop 2)
    | .control =>
      match cmap with
      | [] => []
      | c :: cs =>
        if p.is_output then fedControlValues ps cs inputs
        else
          (if c.has_pending then c.pending_value else inputs.headD 0)
            :: fedControlValues ps cs (inputs.drop 1)
    | .event => fedControlValues ps cmap inputs

/-- Modelled from the spec (claim C3 wording, spec §4.4 item 3): on each
block, a control input port with a live upstream connection is fed the
graph-provided value; otherwise the pending atomic; otherwise the
descriptor default. `connected` lists the liveness flag of each port in
port order. This is the claimed behaviour, kept for comparison with the
code's `fedControlValues`; it is not what plugin_adapter.cpp executes. -/
def specFedControlValues :
    List PluginPort → List ControlPortMapping → List Bool → List ℚ → List ℚ
  | [], _, _, _ => []
  | p :: ps, cmap, connected, inputs =>
    match p.ptype with
    | .audioMono =>
      if p.is_output then specFedControlValues ps cmap (connected.drop 1) inputs
      else specFedControlValues ps cmap (connected.drop 1) (inputs.drop 1)
    | .audioStereo =>
      if p.is_output then specFedControlValues ps cmap (connected.drop 1) inputs
      else specFedControlValues ps cmap (connected.drop 1) (inputs.drop 2)
    | .control =>
      match cmap with
      | [] => []
      | c :: cs =>
        if p.is_output then specFedControlValues ps cs (connected.drop 1) inputs
        else
          (if connected.headD false then inputs.headD 0
           else if c.has_pending then c.pending_value
           else p.default_value)
            :: specFedControlValues ps cs (connected.drop 1) (inputs.drop 1)
    | .event => specFedControlValues ps cmap (connected.drop 1) inputs

/-- `PluginAdapterNode::set_param` (plugin_adapter.cpp:313-323): store into
the first non-output control mapping whose port id matches; otherwise log
and do nothing. -/
def adapterSetParam (cmap : List ControlPortMapping) (name : String) (v : ℚ) :
    List ControlPortMapping :=
  match cmap with
  | [] => []
  | c :: cs =>
    if c.plugin_port_id = name && !c.is_output then
      { c with pending_value := v, has_pending := true } :: cs
    else c :: adapterSetParam cs name v

/- ===================================================================
   Built-in nodes (src/audio_server/src/synth_node.cpp)
   =================================================================== -/

/-- `MixerNode` parameter state (synth_node.h / synth_node.cpp:109-114):
`channel_gain_` holds `input_count_` entries. -/
structure MixerState where
  master_gain : ℚ
  channel_gain : List ℚ
deriving DecidableEq, Repr

/-- `std::stoi` on the characters of a string, base 10: skip leading
whitespace, accept one optional sign, then require at least one digit
(otherwise `std::invalid_argument` is thrown); the maximal digit prefix is
converted. The `int` overflow case (`std::out_of_range`) is not modelled;
no input considered here reaches it. -/
def stoiChars (cs : List Char) : Except String ℤ :=
  let afterWs := cs.dropWhile Char.isWhitespace
  let signed : Bool × List Char :=
    match afterWs with
    | '-' :: rest => (true, rest)
    | '+' :: rest => (false, rest)
    | rest => (false, rest)
  let digits := signed.2.takeWhile Char.isDigit
  if digits.isEmpty then .error "invalid_argument"
  else
    let n : ℤ := digits.foldl (fun acc c => acc * 10 + (c.toNat - '0'.toNat : ℤ)) 0
    .ok (if signed.1 then -n else n)

/-- `std::stoi` on a `String`. -/
def stoiModel (s : String) : Except String ℤ := stoiChars s.data

/-- `MixerNode::set_param` (synth_node.cpp:156-166): `master_gain` clamps
below at 0; a name starting `gain_` runs `std::stoi` on the suffix (which
throws for a suffix with no leading digits) and updates that channel gain
when in range, silently ignoring out-of-range indices; any other name is
ignored. An `Except.error` value models the C++ exception propagating out
of `set_param`. -/
def mixerSetParam (m : MixerState) (name : String) (v : ℚ) :
    Except String MixerState :=
  if name = "master_gain" then .ok { m with master_gain := max 0 v }
  else if name.take 5 = "gain_" then
    match stoiModel (name.drop 5) with
    | .error e => .error e
    | .ok n =>
      .ok (if 0 ≤ n ∧ n < (m.channel_gain.length : ℤ) then
             { m with channel_gain := m.channel_gain.set n.toNat (max 0 v) }
           else m)
  else .ok m

/-- The node variants relevant to parameter dispatch: a mixer, an
adapter-wrapped plugin, or any node inheriting the no-op
`Node::set_param` (graph.h:86), e.g. `TrackSourceNode`. -/
inductive GraphNodeState where
  | mixerS (m : MixerState)
  | adapterS (cmap : List ControlPortMapping)
  | otherS
deriving DecidableEq, Repr

/-- Per-node `set_param` dispatch. Only `MixerNode::set_param` can throw. -/
def nodeSetParam (n : GraphNodeState) (name : String) (v : ℚ) :
    Except String GraphNodeState :=
  match n with
  | .mixerS m => (mixerSetParam m name v).map .mixerS
  | .adapterS cmap => .ok (.adapterS (adapterSetParam cmap name v))
  | .otherS => .ok .otherS

/-- `Graph::set_param` (graph.cpp:361-364): look the node up via
`find_node` (a `node_index_` map lookup, last write wins on duplicate
ids); an unknown id is a silent no-op, otherwise the call forwards to the
node's `set_param` — and whatever that throws propagates. -/
def graphSetParam (nodes : List (String × GraphNodeState)) (nid pname : String)
    (v : ℚ) : Except String (List (String × GraphNodeState)) :=
  match nodes.enum.foldl (fun acc p => if p.2.1 = nid then some p.1 else acc) none with
  | none => .ok nodes
  | some k =>
    (nodeSetParam (nodes.getD k ("", .otherS)).2 pname v).map
      (fun n2 => nodes.set k ((nodes.getD k ("", .otherS)).1, n2))

/- ===================================================================
   Graph (src/audio_server/src/graph.cpp, include/graph.h)
   =================================================================== -/

/-- `Node::PortDecl` (graph.h:57-64) restricted to the fields graph build
reads: the name and direction (the port type and control range play no
role in `topo_sort`, `assign_buffers` or the mixer-output caching). -/
structure GPortDecl where
  pname : String
  is_output : Bool
deriving DecidableEq, Repr

/-- `struct Connection` (graph.h:105-110). -/
structure Connection where
  from_node : String
  from_port : String
  to_node : String
  to_port : String
deriving DecidableEq, Repr

/-- One successfully constructed node of a graph description: its id and
its `declare_ports()` result (graph.cpp:84-90). `make_node` failures
depend only on the node type and plugin availability, never on the
connection list, so descriptions considered here carry nodes that
construct. -/
structure GNode where
  id : String
  ports : List GPortDecl
deriving DecidableEq, Repr

/-- A parsed graph description: node list (in declaration order) and
connection list (in declaration order), as produced by `Graph::from_json`
(graph.cpp:30-104). The connection loop (graph.cpp:93-101) copies every
connection verbatim and has no failure path. -/
structure GraphDesc where
  nodes : List GNode
  connections : List Connection
deriving DecidableEq, Repr

/-- The accumulator walk behind `node_index_` lookup: position `i` is the
index of the head of `l` in the full node list, `acc` the last match so
far. -/
def nodeIndexGo (nid : String) : List GNode → ℕ → Option ℕ → Option ℕ
  | [], _, acc => acc
  | n :: rest, i, acc => nodeIndexGo nid rest (i + 1) (if n.id = nid then some i else acc)

/-- `node_index_` lookup (graph.cpp:89, 366-370): the map is filled with
`node_index_[id] = position` in declaration order, so a duplicate id keeps
the last position. -/
def nodeIndexOf (nodes : List GNode) (nid : String) : Option ℕ :=
  nodeIndexGo nid nodes 0 none

/-- Output-buffer assignment of `Graph::assign_buffers` (graph.cpp:216-233):
a running counter starting at 1 (index 0 is the silent buffer) hands each
node's output ports consecutive pool indices in port order. Returns each
node's `output_buf_indices`. -/
def assignOutputBufs : List GNode → ℕ → List (List ℕ)
  | [], _ => []
  | n :: rest, c =>
    let outs := (n.ports.filter (·.is_output)).length
    (List.range outs).map (· + c) :: assignOutputBufs rest (c + outs)

/-- The `"node_id/port_name" → buffer index` table of `assign_buffers`
(graph.cpp:239-250), as the insertion-ordered pair list. -/
def portBufPairs (nodes : List GNode) : List (String × ℕ) :=
  (nodes.zip (assignOutputBufs nodes 1)).flatMap fun p =>
    ((p.1.ports.filter (·.is_output)).zip p.2).map fun q =>
      (p.1.id ++ "/" ++ q.1.pname, q.2)

/-- `unordered_map` semantics for the table: `port_buf[key] = v` overwrites,
so lookup returns the value of the last insertion with that key. -/
def lookupLast (ps : List (String × ℕ)) (k : String) : Option ℕ :=
  ps.foldl (fun acc p => if p.1 = k then some p.2 else acc) none

/-- The index of `to_port` among a node's input ports, as walked by
graph.cpp:264-272: count input ports (`in_i`) until the first one whose
name matches; `none` when no input port matches. -/
def inputPortIdx (ports : List GPortDecl) (pname : String) : Option ℕ :=
  (ports.filter (fun p => !p.is_output)).findIdx? (fun p => p.pname = pname)

/-- Replace entry `j` of the `k`-th list. -/
def setCell (xss : List (List ℕ)) (k j v : ℕ) : List (List ℕ)  :=
  xss.set k ((xss.getD k []).set j v)

/-- Read entry `j` of the `k`-th list (0 when out of range, matching the
zero-initialised `input_buf_indices`). -/
def getCell (xss : List (List ℕ)) (k j : ℕ) : ℕ :=
  (xss.getD k []).getD j 0

/-- Whether a connection, when processed by the wiring fold of
`assign_buffers`, writes the cell `(k, j)` (node `k`, input port `j`): its
source key must be present in the port table, its target node must resolve
to `k`, and `to_port` must match node `k`'s input port `j`. -/
def connWritesB (nodes : List GNode) (c : Connection) (k j : ℕ) : Bool :=
  (lookupLast (portBufPairs nodes) (c.from_node ++ "/" ++ c.from_port)).isSome
  && decide (nodeIndexOf nodes c.to_node = some k)
  && decide (inputPortIdx (nodes.getD k ⟨"", []⟩).ports c.to_port = some j)

/-- The pool buffer index a connection's source resolves to (0 never
occurs for a present key; the default is irrelevant). -/
def srcBufOf (nodes : List GNode) (c : Connection) : ℕ :=
  (lookupLast (portBufPairs nodes) (c.from_node ++ "/" ++ c.from_port)).getD 0

/-- One iteration of the input-wiring loop of `assign_buffers`
(graph.cpp:253-273): a connection is skipped when its source key is absent
from the table (graph.cpp:256) or its target node is unknown
(graph.cpp:261), and otherwise overwrites the matched input port's buffer
index (no match in the target's input ports leaves everything unchanged). -/
def applyConn (nodes : List GNode) (init : List (List ℕ)) (c : Connection) :
    List (List ℕ) :=
  match lookupLast (portBufPairs nodes) (c.from_node ++ "/" ++ c.from_port) with
  | none => init
  | some srcBuf =>
    match nodeIndexOf nodes c.to_node with
    | none => init
    | some k =>
      match inputPortIdx ((nodes.getD k ⟨"", []⟩).ports) c.to_port with
      | none => init
      | some j => setCell init k j srcBuf

/-- The input-wiring fold of `assign_buffers` (graph.cpp:252-273): every
input port starts at buffer 0 (graph.cpp:228) and the connections are
applied in list order; a later connection into the same input port
therefore wins. -/
def wireInputs (nodes : List GNode) (init : List (List ℕ))
    (conns : List Connection) : List (List ℕ) :=
  conns.foldl (applyConn nodes) init

/-- Initial `input_buf_indices`: one zero per input port of each node
(graph.cpp:228). -/
def initInputBufs (nodes : List GNode) : List (List ℕ) :=
  nodes.map fun n => List.replicate ((n.ports.filter (fun p => !p.is_output)).length) 0

/-- The mixer-output caching of `assign_buffers` (graph.cpp:275-289): only
a node whose id is exactly `"mixer"` is consulted; its output ports are
walked with an output counter, and the ports named `audio_out_L` /
`audio_out_R` donate their buffer indices. -/
def mixerOutputs (nodes : List GNode) (obufs : List (List ℕ)) : Option ℕ × Option ℕ :=
  match nodeIndexOf nodes "mixer" with
  | none => (none, none)
  | some k =>
    let me := nodes.getD k ⟨"", []⟩
    let mb := obufs.getD k []
    (((me.ports.filter (·.is_output)).zip mb).foldl
      (fun acc q =>
        if q.1.pname = "audio_out_L" then (some q.2, acc.2)
        else if q.1.pname = "audio_out_R" then (acc.1, some q.2)
        else acc)
      ((none : Option ℕ), (none : Option ℕ)))

/- ----- topo_sort (graph.cpp:175-210, Kahn's algorithm) ----- -/

/-- First-match association lookup; keys are inserted at most once by the
construction below, matching `unordered_map` access. -/
def alFind (m : List (String × ℤ)) (k : String) : Option ℤ :=
  (m.find? (fun p => p.1 = k)).map (·.2)

/-- `m[k] = v`: overwrite if present, else append (insertion order). -/
def alPut (m : List (String × ℤ)) (k : String) (v : ℤ) : List (String × ℤ) :=
  if (m.find? (fun p => p.1 = k)).isSome then
    m.map (fun p => if p.1 = k then (k, v) else p)
  else m ++ [(k, v)]

/-- `m[k] += d` with `operator[]` default-insertion of 0; returns the new
map and the updated value. -/
def alAdd (m : List (String × ℤ)) (k : String) (d : ℤ) :
    List (String × ℤ) × ℤ :=
  match alFind m k with
  | some v => (alPut m k (v + d), v + d)
  | none => (m ++ [(k, d)], d)

/-- `adj[k].push_back(v)` with default-insertion of an empty list. -/
def adjAppend (m : List (String × List String)) (k v : String) :
    List (String × List String) :=
  if (m.find? (fun p => p.1 = k)).isSome then
    m.map (fun p => if p.1 = k then (p.1, p.2 ++ [v]) else p)
  else m ++ [(k, [v])]

/-- `adj[k]` (empty when absent). -/
def adjGet (m : List (String × List String)) (k : String) : List String :=
  ((m.find? (fun p => p.1 = k)).map (·.2)).getD []

/-- The map-building phase of `topo_sort` (graph.cpp:177-189): every node
id gets in-degree 0 and an empty adjacency list; every non-self-loop
connection appends an edge and increments the target's in-degree
(default-inserting unknown ids). C++ iterates `unordered_map`s in an
unspecified order; the model fixes insertion order — the only property
consumed from the result, the length of the produced order versus the node
count, does not depend on the drain order. -/
def kahnInit (d : GraphDesc) :
    List (String × ℤ) × List (String × List String) :=
  let base := d.nodes.foldl
    (fun acc n => (alPut acc.1 n.id 0,
      if (acc.2.find? (fun p => p.1 = n.id)).isSome then
        acc.2.map (fun p => if p.1 = n.id then (p.1, ([] : List String)) else p)
      else acc.2 ++ [(n.id, [])]))
    (([] : List (String × ℤ)), ([] : List (String × List String)))
  d.connections.foldl
    (fun acc c =>
      if c.from_node = c.to_node then acc
      else ((alAdd acc.1 c.to_node 1).1, adjAppend acc.2 c.from_node c.to_node))
    base

/-- One drain pass over a popped node's adjacency list (graph.cpp:200-202):
decrement each successor's in-degree, pushing those that reach exactly 0.
The queue is a stack (`push_back`/`pop back`), modelled head-first: a push
prepends. -/
def kahnRelax (deg : List (String × ℤ)) (queue : List String) :
    List String → List (String × ℤ) × List String
  | [] => (deg, queue)
  | m :: ms =>
    let r := alAdd deg m (-1)
    kahnRelax r.1 (if r.2 = 0 then m :: queue else queue) ms

/-- The drain loop of `topo_sort` (graph.cpp:197-203). Each id enters the
queue at most once (seeds are the zero-in-degree entries; a decrement
pushes only on reaching exactly 0, and in-degrees never grow), so
`fuel := nodes + connections + 1` exceeds the number of pops and the fuel
never runs out on the runs considered. -/
def kahnDrain (adj : List (String × List String)) :
    ℕ → List String → List (String × ℤ) → List String → List String
  | 0, _, _, acc => acc
  | _ + 1, [], _, acc => acc
  | fuel + 1, n :: queue, deg, acc =>
    let r := kahnRelax deg queue (adjGet adj n)
    kahnDrain adj fuel r.2 r.1 (acc ++ [n])

/-- The order produced by `topo_sort` (graph.cpp:175-203): seed the stack
with the zero-in-degree ids (seeded in map order; the last seed is popped
first), then drain. -/
def kahnOrder (d : GraphDesc) : List String :=
  let im := kahnInit d
  let seeds := (im.1.filter (fun p => p.2 = 0)).map (·.1)
  kahnDrain im.2 (d.nodes.length + d.connections.length + 1) seeds.reverse im.1 []

/-- `topo_sort` succeeds iff the drained order covers the node count
(graph.cpp:205-209). -/
def topoSortOk (d : GraphDesc) : Bool :=
  (kahnOrder d).length = d.nodes.length

/-- The activated graph: evaluation order, wired buffers, and the cached
stereo output buffer indices (`output_L_`/`output_R_`, graph.h:168-169,
`nullptr` when never cached). -/
structure BuiltGraph where
  nodes : List GNode
  connections : List Connection
  eval_order : List String
  input_bufs : List (List ℕ)
  output_bufs : List (List ℕ)
  output_L : Option ℕ
  output_R : Option ℕ
deriving DecidableEq, Repr

/-- `Graph::activate` (graph.cpp:120-164) together with the
`assign_buffers` it calls: on `topo_sort` failure the evaluation order
falls back to declaration order (graph.cpp:124-129) — activation itself
always returns `true` (graph.cpp:163). Per-node `activate()` and the
track-source fan-out wiring mutate only node internals and are not part of
the structure verified here. -/
def graphActivate (d : GraphDesc) : BuiltGraph :=
  let ord := if topoSortOk d then kahnOrder d else d.nodes.map (·.id)
  let obufs := assignOutputBufs d.nodes 1
  let ibufs := wireInputs d.nodes (initInputBufs d.nodes) d.connections
  let mo := mixerOutputs d.nodes obufs
  { nodes := d.nodes
    connections := d.connections
    eval_order := ord
    input_bufs := ibufs
    output_bufs := obufs
    output_L := mo.1
    output_R := mo.2 }

/-- `Graph::activate` return value: unconditionally `true`
(graph.cpp:163). -/
def graphActivateResult (_ : GraphDesc) : Bool := true

/-- Graph build as a whole (`Graph::from_json` then `activate`): for a
description whose node specs all construct (see `GNode`), neither phase
has a failure path — in particular the connection list, duplicated input
targets included, is never validated. -/
def graphBuild (d : GraphDesc) : Option BuiltGraph :=
  some (graphActivate d)

/-- Modelled from the spec (claim C4 wording, spec §3 Connection): build
is claimed to fail when two connections target the same
`(to_node, to_port)` input. Kept for comparison; `graphBuild` performs no
such check. -/
def specHasDupInputConn (d : GraphDesc) : Bool :=
  d.connections.any fun c =>
    1 < (d.connections.filter
          (fun c2 => c2.to_node = c.to_node && c2.to_port = c.to_port)).length

/-- The node indices actually processed by one `Graph::process` call
(graph.cpp:302-305): walk `eval_order_`, skipping ids absent from
`node_index_`. -/
def processedNodes (g : BuiltGraph) : List ℕ :=
  g.eval_order.filterMap (nodeIndexOf g.nodes)

/-- The block-output copy of `AudioEngine::process_block`
(audio_engine.cpp:465-473): when both graph output pointers are wired the
buffers are copied out, otherwise both channels are zero-filled. `pool`
abstracts the buffer-pool contents (`pool i j` = sample `j` of buffer
`i`), so the statement holds regardless of what the nodes produced. -/
def engineBlockOutput (g : BuiltGraph) (pool : ℕ → ℕ → ℚ) (frames : ℕ) :
    List ℚ × List ℚ :=
  match g.output_L, g.output_R with
  | some l, some r => ((List.range frames).map (pool l), (List.range frames).map (pool r))
  | _, _ => (List.replicate frames 0, List.replicate frames 0)

/- ===================================================================
   Engine (src/audio_server/src/audio_engine.cpp, include/audio_engine.h)
   =================================================================== -/

/-- The block loop of `AudioEngine::render_offline` (audio_engine.cpp:527-549)
producing interleaved stereo samples: each iteration renders
`n = min(block, remaining)` frames and appends `2 n` samples. `sL`/`sR`
give the graph's stereo output at an absolute frame index (the loop's
content is irrelevant to the frame-count claims; the functions abstract
`graph->output_L()/output_R()` after each `process`, with the constant-0
pair standing for the unwired-output branch). The structural `fuel`
argument bounds the iteration count; since every iteration renders at
least one frame once `block ≥ 1`, `fuel = remaining` frames suffice. -/
def renderLoopGo (block : ℕ) (sL sR : ℕ → ℚ) :
    ℕ → ℕ → ℕ → List ℚ
  | 0, _, _ => []
  | fuel + 1, f0, r =>
    if r = 0 then []
    else if min block r = 0 then []
    else
      ((List.range (min block r)).flatMap fun i => [sL (f0 + i), sR (f0 + i)])
        ++ renderLoopGo block sL sR fuel (f0 + min block r) (r - min block r)

/-- The render loop at fuel `remaining`. -/
def renderLoop (block : ℕ) (sL sR : ℕ → ℚ) (total : ℕ) : List ℚ :=
  renderLoopGo block sL sR total 0 total

/-- Modelled from the spec: `AudioEngine::render_offline(tail_seconds,
duration_beats)`. The two-argument overload is declared in
audio_engine.h:110-119 (with `duration_beats` documented to cover graphs
with no scheduled events) but its definition is absent from src —
audio_engine.cpp:499-552 holds an older single-argument variant. Following
the spec (§4.7, §8 property 5): total duration =
`max(arrangement_length, duration_beats) × 60/bpm + tail_seconds`, frame
count within one block of `ceil(duration × sample_rate)`; the whole-frame
truncation and the block loop follow the existing loop of
audio_engine.cpp:510-549. -/
def renderOfflineModel (arrLen durationBeats bpm tail sr : ℚ) (block : ℕ)
    (sL sR : ℕ → ℚ) : List ℚ :=
  let lengthBeats := max arrLen durationBeats
  let totalSeconds := lengthBeats * 60 / bpm + tail
  let totalFrames := (totalSeconds * sr).floor.toNat
  renderLoop block sL sR totalFrames

/-- The operations of the graph-retirement protocol that the claims under
study interleave: a control-thread `set_graph` installing graph `g`
(graphs named by numeric handles) and one completed audio callback. -/
inductive EngOp where
  | setGraph (g : ℕ)
  | processBlock
deriving DecidableEq, Repr

/-- Graph-ownership state of the engine (audio_engine.h:141-146):
`owned_graph_`, `retiring_graph_`, the `active_graph_` pointer, the
monotone `graph_epoch_`, plus two histories recording what happened:
graphs freed so far in order (`destroyed`) and, per completed block, the
graph it ran under (`blocks`). -/
structure EngGraphState where
  owned : Option ℕ
  retiring : Option ℕ
  active : Option ℕ
  destroyed : List ℕ
  blocks : List ℕ
  epoch : ℕ
deriving DecidableEq, Repr

/-- The retirement-relevant semantics of `AudioEngine::set_graph`
(audio_engine.cpp:155-187) and `process_block`
(audio_engine.cpp:368-493). `set_graph` frees the previous retiring graph
unconditionally (`retiring_graph_.reset()`, line 176), moves the owned
graph to retiring and publishes the new one; it never reads
`graph_epoch_`. `process_block` completes one block under the active graph
and never increments `graph_epoch_` — no statement in audio_engine.cpp
touches that member, despite the protocol documented at
audio_engine.h:130-140. -/
def engStep (s : EngGraphState) : EngOp → EngGraphState
  | .setGraph g =>
    { s with
      destroyed := s.destroyed ++ s.retiring.toList
      retiring := s.owned
      owned := some g
      active := some g }
  | .processBlock =>
    { s with blocks := s.blocks ++ s.active.toList }

/-- The engine starts with no graphs and epoch 0 (audio_engine.h:142-146). -/
def engInit : EngGraphState :=
  { owned := none, retiring := none, active := none
    destroyed := [], blocks := [], epoch := 0 }

/-- Run a sequence of operations from the initial state. -/
def engRun (ops : List EngOp) : EngGraphState := ops.foldl engStep engInit

/- ===================================================================
   Theorems
   =================================================================== -/

/-- C9: calling `Dispatcher::check_pending()` twice with no intervening
`swap_schedule` leaves the dispatcher unchanged on the second call — the
same current schedule and cursor index, with `false` returned — because
the first call empties the pending slot. -/
theorem check_pending_idempotent (d : Dispatcher) :
    checkPending (checkPending d).1 = ((checkPending d).1, false) := by
  cases h : d.pending <;> simp [checkPending, h]

/-- C6: the implemented retirement protocol frees a graph without ever
waiting for a block under its successor. After
`set_graph(G1); set_graph(G2); set_graph(G3)` with no audio callback in
between, graph 1 — whose successor graph 2 never completed a block — is
already destroyed, and `graph_epoch_` still reads 0: audio_engine.cpp
neither increments it in `process_block` nor consults it in `set_graph`,
contrary to the protocol documented in audio_engine.h:130-140. -/
theorem graph_retired_without_epoch_wait :
    (engRun [.setGraph 1, .setGraph 2, .setGraph 3]).destroyed = [1]
    ∧ (engRun [.setGraph 1, .setGraph 2, .setGraph 3]).blocks = []
    ∧ (engRun [.setGraph 1, .setGraph 2, .setGraph 3]).epoch = 0
    ∧ (engRun [.setGraph 1, .processBlock, .setGraph 2, .processBlock]).epoch = 0 := by
  decide

/-- C8: `Graph::set_param` on a mixer with parameter name `"gain_x"`
raises (the modelled `std::invalid_argument` from `std::stoi("x")`
propagates out of `MixerNode::set_param`, synth_node.cpp:162) instead of
being a silent no-op; an unknown node id, by contrast, is the silent
no-op the claim describes (graph.cpp:361-364). -/
theorem mixer_gain_param_raises :
    graphSetParam [("mixer", .mixerS ⟨1, [1, 1]⟩)] "mixer" "gain_x" (1/2)
      = .error "invalid_argument"
    ∧ graphSetParam [("mixer", .mixerS ⟨1, [1, 1]⟩)] "ghost" "gain_x" (1/2)
      = .ok [("mixer", .mixerS ⟨1, [1, 1]⟩)] := by
  exact ⟨rfl, rfl⟩

/-- C3: on a block where a control input port has a live upstream
connection carrying 5 while a `set_param` value 7 is pending,
`PluginAdapterNode::process` feeds the plugin 7 — the pending atomic
overrides the graph-provided value unconditionally
(plugin_adapter.cpp:239-244; the header's `is_connected` flag,
plugin_adapter.h:95-98, is never read and `set_control_connected` is
never defined or called) — whereas the claimed behaviour
(`specFedControlValues`) feeds the connection value 5. -/
theorem adapter_pending_overrides_connection :
    fedControlValues [⟨.control, false, 3⟩] [⟨"cutoff", false, 7, true⟩] [5] = [7]
    ∧ specFedControlValues [⟨.control, false, 3⟩] [⟨"cutoff", false, 7, true⟩]
        [true] [5] = [5]
    ∧ (7 : ℚ) ≠ 5 := by
  decide

/-- `schedLE` unfolded into the lexicographic order on
`(beat, typePriority)`. -/
theorem schedLE_iff (a b : SchedEvent) :
    schedLE a b = true
      ↔ a.beat < b.beat
        ∨ (a.beat = b.beat ∧ typePriority a.etype ≤ typePriority b.etype) := by
  by_cases h : b.beat = a.beat
  · simp [schedLE, schedCmp, h, not_lt]
  · have h2 : ¬ a.beat = b.beat := fun he => h he.symm
    simp only [schedLE, schedCmp, if_pos h, Bool.not_eq_true', decide_eq_false_iff_not,
      not_lt, h2, false_and, or_false]
    exact ⟨fun hle => lt_of_le_of_ne hle h2, le_of_lt⟩

/-- Transitivity of `schedLE` (precondition of the mergeSort lemmas). -/
theorem schedLE_trans (a b c : SchedEvent) (hab : schedLE a b = true)
    (hbc : schedLE b c = true) : schedLE a c = true := by
  rw [schedLE_iff] at hab hbc ⊢
  rcases hab with h1 | ⟨h1, h1p⟩ <;> rcases hbc with h2 | ⟨h2, h2p⟩
  · exact Or.inl (h1.trans h2)
  · exact Or.inl (h2 ▸ h1)
  · exact Or.inl (h1 ▸ h2)
  · exact Or.inr ⟨h1.trans h2, h1p.trans h2p⟩

/-- Totality of `schedLE` (precondition of the mergeSort lemmas). -/
theorem schedLE_total (a b : SchedEvent) :
    (schedLE a b || schedLE b a) = true := by
  rcases lt_trichotomy a.beat b.beat with h | h | h
  · simp [schedLE_iff, h]
  · rcases le_total (typePriority a.etype) (typePriority b.etype) with hp | hp
    · simp [schedLE_iff, h, hp]
    · simp [schedLE_iff, h.symm, hp]
  · simp [schedLE_iff a b, schedLE_iff b a, h]

/-- C2 counterexample: the batch `[bend@1, note_off@1]` — two equal-beat
events drawn from the claimed equal-priority set — is reordered by
`Schedule::from_json`: the note-off (code priority 0, scheduler.cpp:56)
sorts in front of the bend (priority 1) instead of keeping input order. -/
theorem schedule_sort_claim_counterexample :
    scheduleFromJson
        [⟨1, "bend", 0, 10, 3, 0, "n"⟩, ⟨1, "note_off", 0, 60, 0, 0, "n"⟩]
      = some ⟨[⟨1, .noteOff, 0, 60, 0, 0, "n"⟩, ⟨1, .bend, 0, 10, 3, 0, "n"⟩], 1⟩
    ∧ (⟨1, .noteOff, 0, 60, 0, 0, "n"⟩ : SchedEvent)
        ≠ ⟨1, .bend, 0, 10, 3, 0, "n"⟩ := by
  constructor
  · have h1 : ([⟨1, "bend", 0, 10, 3, 0, "n"⟩,
        ⟨1, "note_off", 0, 60, 0, 0, "n"⟩] : List RawEvent).mapM parseEvent
        = some [⟨1, .bend, 0, 10, 3, 0, "n"⟩, ⟨1, .noteOff, 0, 60, 0, 0, "n"⟩] := rfl
    rw [scheduleFromJson, h1, Option.map_some']
    have h2 : ([⟨1, .bend, 0, 10, 3, 0, "n"⟩,
        ⟨1, .noteOff, 0, 60, 0, 0, "n"⟩] : List SchedEvent).mergeSort schedLE
        = [⟨1, .noteOff, 0, 60, 0, 0, "n"⟩, ⟨1, .bend, 0, 10, 3, 0, "n"⟩] := by
      simp [List.mergeSort, List.merge, schedLE, schedCmp, typePriority]
    rw [h2]
    decide
  · decide

/-- C2 (amended): `Schedule::from_json` sorts the accepted batch by
`(beat, type-priority)` with a stable tie-break in which note-off has
priority 0, program-change, volume, bend and control have priority 1, and
note-on has priority 2: the result is `schedLE`-sorted, a permutation of
the parsed input, and any two events whose input order agrees with
`schedLE` keep that order — so equal-beat events of equal priority keep
input order, every equal-beat note-off sorts before the other five types,
and every equal-beat note-on sorts after the other five. -/
theorem schedule_sort_stable_code_priority (raws : List RawEvent) (sched : Schedule)
    (h : scheduleFromJson raws = some sched) :
    List.Pairwise (fun a b => schedLE a b = true) sched.events
    ∧ ∃ evts, raws.mapM parseEvent = some evts
        ∧ sched.events.Perm evts
        ∧ ∀ e1 e2 : SchedEvent, [e1, e2].Sublist evts → schedLE e1 e2 = true →
            [e1, e2].Sublist sched.events := by
  cases hm : raws.mapM parseEvent with
  | none =>
    rw [scheduleFromJson, hm] at h
    simp at h
  | some evts =>
    rw [scheduleFromJson, hm, Option.map_some', Option.some.injEq] at h
    subst h
    refine ⟨List.sorted_mergeSort schedLE_trans schedLE_total evts,
      evts, rfl, List.mergeSort_perm evts schedLE, ?_⟩
    intro e1 e2 hsub hle
    exact List.sublist_mergeSort schedLE_trans schedLE_total
      (by simp [List.pairwise_cons, hle]) hsub

/-- A walk over ids none of which match leaves the accumulator unchanged. -/
theorem nodeIndexGo_skip (nid : String) (l : List GNode)
    (h : ∀ n ∈ l, n.id ≠ nid) :
    ∀ (i0 : ℕ) (acc : Option ℕ), nodeIndexGo nid l i0 acc = acc := by
  induction l with
  | nil => intro i0 acc; rfl
  | cons n rest ih =>
    intro i0 acc
    have hn : n.id ≠ nid := h n (List.mem_cons_self n rest)
    show nodeIndexGo nid rest (i0 + 1) (if n.id = nid then some i0 else acc) = acc
    rw [if_neg hn]
    exact ih (fun x hx => h x (List.mem_cons_of_mem n hx)) _ _

/-- An absent id resolves to `none` (`find_node` returns `nullptr`). -/
theorem nodeIndexOf_none (nodes : List GNode) (nid : String)
    (h : ∀ n ∈ nodes, n.id ≠ nid) : nodeIndexOf nodes nid = none :=
  nodeIndexGo_skip nid nodes h 0 none

/-- C10: the graph's stereo output pointers are wired only for a node whose
id is exactly `"mixer"` (graph.cpp:276): in every activated graph without
such a node `output_L()`/`output_R()` stay null, and the engine's block
copy (audio_engine.cpp:465-473) then writes all-zero output for both
channels regardless of the pool contents the nodes produced. -/
theorem no_mixer_silent_output (d : GraphDesc) (pool : ℕ → ℕ → ℚ) (frames : ℕ)
    (h : ∀ n ∈ d.nodes, n.id ≠ "mixer") :
    (graphActivate d).output_L = none ∧ (graphActivate d).output_R = none
    ∧ engineBlockOutput (graphActivate d) pool frames
        = (List.replicate frames 0, List.replicate frames 0) := by
  have hm : nodeIndexOf d.nodes "mixer" = none := nodeIndexOf_none _ _ h
  have hmo : mixerOutputs d.nodes (assignOutputBufs d.nodes 1) = (none, none) := by
    simp [mixerOutputs, hm]
  have hL : (graphActivate d).output_L = none := by
    simp [graphActivate, hmo]
  have hR : (graphActivate d).output_R = none := by
    simp [graphActivate, hmo]
  refine ⟨hL, hR, ?_⟩
  simp [engineBlockOutput, hL, hR]

/-- Witness for `no_mixer_silent_output` at a one-node sine graph. -/
theorem no_mixer_silent_output_witness :
    (∀ n ∈ (GraphDesc.mk [⟨"sine", [⟨"audio_out_L", true⟩, ⟨"audio_out_R", true⟩]⟩]
        []).nodes, n.id ≠ "mixer")
    ∧ ((graphActivate (GraphDesc.mk
          [⟨"sine", [⟨"audio_out_L", true⟩, ⟨"audio_out_R", true⟩]⟩] [])).output_L = none
      ∧ (graphActivate (GraphDesc.mk
          [⟨"sine", [⟨"audio_out_L", true⟩, ⟨"audio_out_R", true⟩]⟩] [])).output_R = none
      ∧ engineBlockOutput (graphActivate (GraphDesc.mk
          [⟨"sine", [⟨"audio_out_L", true⟩, ⟨"audio_out_R", true⟩]⟩] []))
          (fun i j => (i * 10 + j : ℚ)) 2
        = (List.replicate 2 0, List.replicate 2 0)) :=
  ⟨by decide, no_mixer_silent_output _ (fun i j => (i * 10 + j : ℚ)) 2 (by decide)⟩

/-- A walk over a list whose tail after `x` never matches `x.id` resolves
to the position of `x`. -/
theorem nodeIndexGo_last (nid : String) (x : GNode) (l2 : List GNode)
    (hx : x.id = nid) (h2 : ∀ n ∈ l2, n.id ≠ nid) :
    ∀ (l1 : List GNode) (i0 : ℕ) (acc : Option ℕ),
      nodeIndexGo nid (l1 ++ x :: l2) i0 acc = some (i0 + l1.length) := by
  intro l1
  induction l1 with
  | nil =>
    intro i0 acc
    show nodeIndexGo nid l2 (i0 + 1) (if x.id = nid then some i0 else acc)
      = some (i0 + 0)
    rw [if_pos hx, nodeIndexGo_skip nid l2 h2]
    rfl
  | cons y l1 ih =>
    intro i0 acc
    show nodeIndexGo nid (l1 ++ x :: l2) (i0 + 1)
        (if y.id = nid then some i0 else acc) = some (i0 + (l1.length + 1))
    rw [ih]
    congr 1
    omega

/-- In a duplicate-free node list, the id of the `k`-th node resolves to
`k`. -/
theorem nodeIndexOf_getD (nodes : List GNode) (hnd : (nodes.map GNode.id).Nodup)
    (k : ℕ) (hk : k < nodes.length) :
    nodeIndexOf nodes ((nodes.getD k ⟨"", []⟩).id) = some k := by
  set x := nodes.getD k ⟨"", []⟩ with hxdef
  have hdec : nodes = nodes.take k ++ x :: nodes.drop (k + 1) := by
    rw [hxdef, List.getD_eq_getElem _ _ hk]
    conv_lhs => rw [← List.take_append_drop k nodes]
    rw [List.drop_eq_getElem_cons hk]
  have h2 : ∀ n ∈ nodes.drop (k + 1), n.id ≠ x.id := by
    intro n hn heq
    have hnd2 : ((nodes.take k ++ x :: nodes.drop (k + 1)).map GNode.id).Nodup := by
      rw [← hdec]; exact hnd
    rw [List.map_append, List.map_cons] at hnd2
    have hnotin := (List.nodup_cons.mp hnd2.of_append_right).1
    exact hnotin (heq ▸ List.mem_map_of_mem GNode.id hn)
  have hgo := nodeIndexGo_last x.id x (nodes.drop (k + 1)) rfl h2 (nodes.take k) 0 none
  show nodeIndexGo x.id nodes 0 none = some k
  conv_lhs => rw [hdec]
  rw [hgo]
  congr 1
  simp only [List.length_take]
  omega

/-- Walking the declaration-order ids through `node_index_` lookup yields
the node positions in order: the suffix starting at `k` resolves to
`[k, …, n-1]`. -/
theorem processed_decl_drop (nodes : List GNode)
    (hnd : (nodes.map GNode.id).Nodup) :
    ∀ (m k : ℕ), nodes.length - k = m →
      ((nodes.drop k).map GNode.id).filterMap (nodeIndexOf nodes)
        = List.range' k m := by
  intro m
  induction m with
  | zero =>
    intro k hk
    have hge : nodes.length ≤ k := by omega
    simp [List.drop_eq_nil_of_le hge]
  | succ m ih =>
    intro k hk
    have hk2 : k < nodes.length := by omega
    have hxd : nodes[k] = nodes.getD k ⟨"", []⟩ := (List.getD_eq_getElem _ _ hk2).symm
    rw [List.drop_eq_getElem_cons hk2, List.map_cons, List.filterMap_cons, hxd,
      nodeIndexOf_getD nodes hnd k hk2, List.range'_succ]
    rw [ih (k + 1) (by omega)]

/-- Declaration order, fed through `node_index_`, processes every node
exactly once and in order. -/
theorem processed_decl (nodes : List GNode) (hnd : (nodes.map GNode.id).Nodup) :
    (nodes.map GNode.id).filterMap (nodeIndexOf nodes)
      = List.range nodes.length := by
  have h := processed_decl_drop nodes hnd nodes.length 0 (by omega)
  simpa [List.range_eq_range'] using h

/-- C7: when Kahn's order fails to cover the node set (a cycle),
`Graph::activate` does not fail — it still returns `true`
(graph.cpp:163), falls back to declaration order (graph.cpp:124-129), and
a subsequent `Graph::process` walk (graph.cpp:302-305) runs every node
exactly once, in declaration order. -/
theorem cycle_falls_back_to_declaration_order (d : GraphDesc)
    (hnd : (d.nodes.map GNode.id).Nodup)
    (hcyc : (kahnOrder d).length ≠ d.nodes.length) :
    graphActivateResult d = true
    ∧ (graphActivate d).eval_order = d.nodes.map GNode.id
    ∧ processedNodes (graphActivate d) = List.range d.nodes.length := by
  have ho : topoSortOk d = false := by
    simp [topoSortOk, hcyc]
  refine ⟨rfl, ?_, ?_⟩
  · simp [graphActivate, ho]
  · simp [processedNodes, graphActivate, ho, processed_decl d.nodes hnd]

/-- Witness for `cycle_falls_back_to_declaration_order` at the two-node
cycle `a → b → a`. -/
theorem cycle_falls_back_witness :
    ((((GraphDesc.mk [⟨"a", []⟩, ⟨"b", []⟩]
        [⟨"a", "o", "b", "i"⟩, ⟨"b", "o", "a", "i"⟩]).nodes.map GNode.id).Nodup)
      ∧ (kahnOrder (GraphDesc.mk [⟨"a", []⟩, ⟨"b", []⟩]
            [⟨"a", "o", "b", "i"⟩, ⟨"b", "o", "a", "i"⟩])).length
          ≠ (GraphDesc.mk [⟨"a", []⟩, ⟨"b", []⟩]
            [⟨"a", "o", "b", "i"⟩, ⟨"b", "o", "a", "i"⟩]).nodes.length)
    ∧ (graphActivateResult (GraphDesc.mk [⟨"a", []⟩, ⟨"b", []⟩]
          [⟨"a", "o", "b", "i"⟩, ⟨"b", "o", "a", "i"⟩]) = true
      ∧ (graphActivate (GraphDesc.mk [⟨"a", []⟩, ⟨"b", []⟩]
          [⟨"a", "o", "b", "i"⟩, ⟨"b", "o", "a", "i"⟩])).eval_order
          = (GraphDesc.mk [⟨"a", []⟩, ⟨"b", []⟩]
            [⟨"a", "o", "b", "i"⟩, ⟨"b", "o", "a", "i"⟩]).nodes.map GNode.id
      ∧ processedNodes (graphActivate (GraphDesc.mk [⟨"a", []⟩, ⟨"b", []⟩]
          [⟨"a", "o", "b", "i"⟩, ⟨"b", "o", "a", "i"⟩]))
          = List.range (GraphDesc.mk [⟨"a", []⟩, ⟨"b", []⟩]
            [⟨"a", "o", "b", "i"⟩, ⟨"b", "o", "a", "i"⟩]).nodes.length) :=
  ⟨⟨by decide, by decide⟩,
    cycle_falls_back_to_declaration_order _ (by decide) (by decide)⟩

/-- A successful `findIdx?` returns an index below the length. -/
theorem findIdxQ_lt {α : Type} (p : α → Bool) :
    ∀ (l : List α) (j : ℕ), List.findIdx? p l = some j → j < l.length := by
  intro l
  induction l with
  | nil => intro j h; simp [List.findIdx?] at h
  | cons a t ih =>
    intro j h
    rw [List.findIdx?_cons] at h
    by_cases hp : p a
    · simp [hp] at h
      simp [← h]
    · simp [hp] at h
      obtain ⟨a2, ha2, hj⟩ := h
      have := ih a2 ha2
      simp only [List.length_cons]
      omega

/-- An input-port match is within the input-port count. -/
theorem inputPortIdx_lt (ports : List GPortDecl) (pname : String) (j : ℕ)
    (h : inputPortIdx ports pname = some j) :
    j < ((ports.filter (fun p => !p.is_output))).length := by
  unfold inputPortIdx at h
  exact findIdxQ_lt _ _ j h

/-- `node_index_` values are positions in the node list. -/
theorem nodeIndexGo_lt (nid : String) :
    ∀ (l : List GNode) (i0 : ℕ) (acc : Option ℕ) (k : ℕ),
      (∀ m, acc = some m → m < i0) →
      nodeIndexGo nid l i0 acc = some k → k < i0 + l.length := by
  intro l
  induction l with
  | nil =>
    intro i0 acc k hacc h
    have := hacc k h
    omega
  | cons n rest ih =>
    intro i0 acc k hacc h
    have hstep : nodeIndexGo nid (n :: rest) i0 acc
        = nodeIndexGo nid rest (i0 + 1) (if n.id = nid then some i0 else acc) := rfl
    rw [hstep] at h
    have hacc2 : ∀ m, (if n.id = nid then some i0 else acc) = some m → m < i0 + 1 := by
      intro m hm
      by_cases hn : n.id = nid
      · rw [if_pos hn] at hm
        injection hm with hmm
        omega
      · rw [if_neg hn] at hm
        have := hacc m hm
        omega
    have := ih (i0 + 1) _ k hacc2 h
    simp only [List.length_cons]
    omega

/-- `nodeIndexOf` bound. -/
theorem nodeIndexOf_lt (nodes : List GNode) (nid : String) (k : ℕ)
    (h : nodeIndexOf nodes nid = some k) : k < nodes.length := by
  have := nodeIndexGo_lt nid nodes 0 none k (by intro m hm; cases hm) h
  omega

/-- `setCell` keeps the outer length. -/
theorem length_setCell (xss : List (List ℕ)) (k j v : ℕ) :
    (setCell xss k j v).length = xss.length := by
  simp [setCell]

/-- `setCell` keeps every row's length. -/
theorem setCell_row_length (xss : List (List ℕ)) (k2 j2 v : ℕ) :
    ∀ k3, ((setCell xss k2 j2 v).getD k3 []).length = (xss.getD k3 []).length := by
  intro k3
  by_cases hk : k2 = k3
  · subst hk
    by_cases hlt : k2 < xss.length
    · simp [setCell, List.getD_eq_getElem?_getD, List.getElem?_set, hlt]
    · rw [setCell, List.set_eq_of_length_le (le_of_not_lt hlt)]
  · simp [setCell, List.getD_eq_getElem?_getD, List.getElem?_set, hk]

/-- Reading the freshly set cell (in range). -/
theorem getCell_setCell_self (xss : List (List ℕ)) (k j v : ℕ)
    (hk : k < xss.length) (hj : j < (xss.getD k []).length) :
    getCell (setCell xss k j v) k j = v := by
  have hrow : (xss.getD k []) = xss[k] := List.getD_eq_getElem _ _ hk
  simp [getCell, setCell, List.getD_eq_getElem?_getD, List.getElem?_set, hk,
    List.getElem?_set_self (hrow ▸ hj)]

/-- Reading any other cell after a `setCell`. -/
theorem getCell_setCell_ne (xss : List (List ℕ)) (k2 j2 v k j : ℕ)
    (h : ¬(k2 = k ∧ j2 = j)) :
    getCell (setCell xss k2 j2 v) k j = getCell xss k j := by
  by_cases hk : k2 = k
  · subst hk
    have hj : ¬ j2 = j := fun hj => h ⟨rfl, hj⟩
    by_cases hlt : k2 < xss.length
    · simp [getCell, setCell, List.getD_eq_getElem?_getD, List.getElem?_set, hlt,
        List.getElem?_set_ne hj]
    · rw [setCell, List.set_eq_of_length_le (le_of_not_lt hlt)]
  · simp [getCell, setCell, List.getD_eq_getElem?_getD, List.getElem?_set, hk]

/-- `getD` of a zero replicate is zero. -/
theorem getD_replicate_zero : ∀ (n j : ℕ), (List.replicate n (0 : ℕ)).getD j 0 = 0 := by
  intro n
  induction n with
  | zero => intro j; cases j <;> rfl
  | succ n ih =>
    intro j
    cases j with
    | zero => rfl
    | succ j => exact ih j

/-- Every cell of the initial wiring is the silent buffer 0. -/
theorem getCell_init (nodes : List GNode) (k j : ℕ) :
    getCell (initInputBufs nodes) k j = 0 := by
  cases h : nodes[k]? with
  | none => simp [getCell, initInputBufs, List.getD_eq_getElem?_getD, List.getElem?_map, h]
  | some n =>
    simp [getCell, initInputBufs, List.getD_eq_getElem?_getD, List.getElem?_map, h,
      getD_replicate_zero]

/-- The initial wiring has one row per node. -/
theorem initInputBufs_length (nodes : List GNode) :
    (initInputBufs nodes).length = nodes.length := by
  simp [initInputBufs]

/-- Each initial row has one entry per input port of its node. -/
theorem initInputBufs_row (nodes : List GNode) (k : ℕ) (hk : k < nodes.length) :
    ((initInputBufs nodes).getD k []).length
      = ((nodes.getD k ⟨"", []⟩).ports.filter (fun p => !p.is_output)).length := by
  have h1 : nodes[k]? = some nodes[k] := List.getElem?_eq_getElem hk
  have h2 : nodes.getD k ⟨"", []⟩ = nodes[k] := List.getD_eq_getElem _ _ hk
  simp [initInputBufs, List.getD_eq_getElem?_getD, List.getElem?_map, h1, h2]

/-- The wiring fold resolves each cell to the last connection writing it:
walking the connection list in order, the cell `(k, j)` ends up holding the
source buffer of the last connection that writes it, or its initial value
when none does. -/
theorem wireInputs_cell (nodes : List GNode) :
    ∀ (conns : List Connection) (init : List (List ℕ)) (k j : ℕ),
      init.length = nodes.length →
      (∀ k2, k2 < nodes.length →
        (init.getD k2 []).length
          = ((nodes.getD k2 ⟨"", []⟩).ports.filter (fun p => !p.is_output)).length) →
      getCell (wireInputs nodes init conns) k j
        = (match (conns.filter (fun c => connWritesB nodes c k j)).getLast? with
           | some c => srcBufOf nodes c
           | none => getCell init k j) := by
  intro conns
  induction conns with
  | nil => intro init k j _ _; rfl
  | cons c rest ih =>
    intro init k j hlen hrow
    have hstep : wireInputs nodes init (c :: rest)
        = wireInputs nodes (applyConn nodes init c) rest := rfl
    cases hsl : lookupLast (portBufPairs nodes) (c.from_node ++ "/" ++ c.from_port) with
    | none =>
      have happ : applyConn nodes init c = init := by simp [applyConn, hsl]
      have hw : connWritesB nodes c k j = false := by simp [connWritesB, hsl]
      rw [hstep, happ, ih init k j hlen hrow]
      simp [List.filter_cons, hw]
    | some srcBuf =>
      cases hni : nodeIndexOf nodes c.to_node with
      | none =>
        have happ : applyConn nodes init c = init := by simp [applyConn, hsl, hni]
        have hw : connWritesB nodes c k j = false := by simp [connWritesB, hni]
        rw [hstep, happ, ih init k j hlen hrow]
        simp [List.filter_cons, hw]
      | some k2 =>
        cases hip : inputPortIdx ((nodes.getD k2 ⟨"", []⟩).ports) c.to_port with
        | none =>
          have hip2 : inputPortIdx ((nodes[k2]?.getD ⟨"", []⟩)).ports c.to_port
              = none := by
            rw [← List.getD_eq_getElem?_getD]; exact hip
          have happ : applyConn nodes init c = init := by
            simp [applyConn, hsl, hni, hip, hip2]
          have hw : connWritesB nodes c k j = false := by
            by_cases hk2 : k2 = k
            · subst hk2
              simp [connWritesB, hni, hip, hip2]
            · simp [connWritesB, hni, hk2]
          rw [hstep, happ, ih init k j hlen hrow]
          simp [List.filter_cons, hw]
        | some j2 =>
          have hip2 : inputPortIdx ((nodes[k2]?.getD ⟨"", []⟩)).ports c.to_port
              = some j2 := by
            rw [← List.getD_eq_getElem?_getD]; exact hip
          have happ : applyConn nodes init c = setCell init k2 j2 srcBuf := by
            simp [applyConn, hsl, hni, hip, hip2]
          have hlen2 : (setCell init k2 j2 srcBuf).length = nodes.length := by
            rw [length_setCell, hlen]
          have hrow2 : ∀ k3, k3 < nodes.length →
              ((setCell init k2 j2 srcBuf).getD k3 []).length
                = ((nodes.getD k3 ⟨"", []⟩).ports.filter
                    (fun p => !p.is_output)).length := by
            intro k3 hk3
            rw [setCell_row_length]
            exact hrow k3 hk3
          rw [hstep, happ, ih _ k j hlen2 hrow2]
          by_cases hkj : k2 = k ∧ j2 = j
          · obtain ⟨hk2, hj2⟩ := hkj
            subst hk2
            subst hj2
            have hw : connWritesB nodes c k2 j2 = true := by
              simp [connWritesB, hsl, hni, hip, hip2]
            have hk2lt : k2 < nodes.length := nodeIndexOf_lt nodes c.to_node k2 hni
            have hj2lt : j2 < (init.getD k2 []).length := by
              rw [hrow k2 hk2lt]
              exact inputPortIdx_lt _ _ _ hip
            have hget : getCell (setCell init k2 j2 srcBuf) k2 j2 = srcBuf := by
              apply getCell_setCell_self
              · rw [hlen]; exact hk2lt
              · exact hj2lt
            have hsrc : srcBufOf nodes c = srcBuf := by simp [srcBufOf, hsl]
            cases hlast : (rest.filter (fun c2 => connWritesB nodes c2 k2 j2)).getLast? with
            | none => simp [List.filter_cons, hw, List.getLast?_cons, hlast, hget, hsrc]
            | some c2 => simp [List.filter_cons, hw, List.getLast?_cons, hlast]
          · have hw : connWritesB nodes c k j = false := by
              by_cases hk2 : k2 = k
              · subst hk2
                have hj2 : ¬ j2 = j := fun hj => hkj ⟨rfl, hj⟩
                simp [connWritesB, hni, hip, hip2, hj2]
              · simp [connWritesB, hni, hk2]
            have hget := getCell_setCell_ne init k2 j2 srcBuf k j hkj
            cases hlast : (rest.filter (fun c2 => connWritesB nodes c2 k j)).getLast? with
            | none => simp [List.filter_cons, hw, hlast, hget]
            | some c2 => simp [List.filter_cons, hw, hlast]

/-- C4 (amended): graph build (parse plus activation) never rejects a
connection list — duplicate connections into the same input port
included — and `assign_buffers` wires each input port to the source buffer
of the *last* connection targeting it (earlier ones are overwritten),
falling back to the silent buffer 0 when none does; fan-out of one output
to many inputs is likewise accepted, each target port receiving that
output's buffer. -/
theorem graph_build_last_connection_wins (d : GraphDesc) (k j : ℕ) :
    (graphBuild d).isSome = true
    ∧ getCell (graphActivate d).input_bufs k j
        = (match (d.connections.filter (fun c => connWritesB d.nodes c k j)).getLast? with
           | some c => srcBufOf d.nodes c
           | none => 0) := by
  refine ⟨rfl, ?_⟩
  have h := wireInputs_cell d.nodes d.connections (initInputBufs d.nodes) k j
    (initInputBufs_length d.nodes) (fun k2 hk2 => initInputBufs_row d.nodes k2 hk2)
  have hIB : (graphActivate d).input_bufs
      = wireInputs d.nodes (initInputBufs d.nodes) d.connections := rfl
  rw [hIB, h]
  cases hlast : (d.connections.filter (fun c => connWritesB d.nodes c k j)).getLast? with
  | none => simp [hlast, getCell_init]
  | some c2 => simp [hlast]

/-- C4 counterexample: a description wiring two different source ports of
`src` into the *same* input port `dst/in` builds and activates without any
error (the claim demands failure), and the input port ends up wired to the
last connection's buffer (index 2, the buffer of `src/out2`). -/
theorem duplicate_input_connection_accepted :
    (graphBuild (GraphDesc.mk
        [⟨"src", [⟨"out1", true⟩, ⟨"out2", true⟩]⟩, ⟨"dst", [⟨"in", false⟩]⟩]
        [⟨"src", "out1", "dst", "in"⟩, ⟨"src", "out2", "dst", "in"⟩])).isSome = true
    ∧ specHasDupInputConn (GraphDesc.mk
        [⟨"src", [⟨"out1", true⟩, ⟨"out2", true⟩]⟩, ⟨"dst", [⟨"in", false⟩]⟩]
        [⟨"src", "out1", "dst", "in"⟩, ⟨"src", "out2", "dst", "in"⟩]) = true
    ∧ (graphActivate (GraphDesc.mk
        [⟨"src", [⟨"out1", true⟩, ⟨"out2", true⟩]⟩, ⟨"dst", [⟨"in", false⟩]⟩]
        [⟨"src", "out1", "dst", "in"⟩, ⟨"src", "out2", "dst", "in"⟩])).input_bufs
        = [[], [2]] := by
  decide

/-- One rendered chunk holds two samples per frame. -/
theorem chunk_length (f g : ℕ → ℚ) :
    ∀ m, ((List.range m).flatMap fun i => [f i, g i]).length = 2 * m := by
  intro m
  induction m with
  | zero => rfl
  | succ m ih =>
    rw [List.range_succ, List.flatMap_append, List.length_append, ih]
    simp [List.flatMap]
    omega

/-- The render loop emits exactly `2 × remaining` samples once the block
size is positive and the fuel covers the remaining frame count. -/
theorem renderLoopGo_length (block : ℕ) (sL sR : ℕ → ℚ) (hb : 1 ≤ block) :
    ∀ (fuel f0 r : ℕ), r ≤ fuel →
      (renderLoopGo block sL sR fuel f0 r).length = 2 * r := by
  intro fuel
  induction fuel with
  | zero =>
    intro f0 r hr
    have h0 : r = 0 := by omega
    subst h0
    rfl
  | succ fuel ih =>
    intro f0 r hr
    by_cases hr0 : r = 0
    · subst hr0
      simp [renderLoopGo]
    · have hn : ¬ min block r = 0 := by omega
      rw [renderLoopGo, if_neg hr0, if_neg hn, List.length_append,
        chunk_length, ih (f0 + min block r) (r - min block r) (by omega)]
      omega

/-- C5 (spec-modelled): offline rendering produces interleaved stereo PCM
whose frame count is `⌊duration × sample_rate⌋` for
`duration = max(arrangement_length, duration_beats) × 60/bpm + tail`,
which is within one block of `⌈duration × sample_rate⌉` whenever
`block ≥ 1`; and with an empty arrangement but `duration_beats > 0` the
rendered length still covers that duration. -/
theorem render_offline_frame_count (arrLen durationBeats bpm tail sr : ℚ)
    (block : ℕ) (sL sR : ℕ → ℚ)
    (hb : 1 ≤ block) (hbpm : 0 < bpm) (htail : 0 ≤ tail)
    (hdur : 0 ≤ durationBeats) (harr : 0 ≤ arrLen) (hsr : 0 < sr) :
    (renderOfflineModel arrLen durationBeats bpm tail sr block sL sR).length
      = 2 * ((max arrLen durationBeats * 60 / bpm + tail) * sr).floor.toNat
    ∧ (⌈(max arrLen durationBeats * 60 / bpm + tail) * sr⌉
        - (((max arrLen durationBeats * 60 / bpm + tail) * sr).floor.toNat : ℤ)).natAbs
        ≤ block
    ∧ (arrLen = 0 →
        (renderOfflineModel arrLen durationBeats bpm tail sr block sL sR).length
          = 2 * ((durationBeats * 60 / bpm + tail) * sr).floor.toNat) := by
  have hmax : 0 ≤ max arrLen durationBeats := le_trans harr (le_max_left _ _)
  have hx0 : 0 ≤ (max arrLen durationBeats * 60 / bpm + tail) * sr := by
    apply mul_nonneg _ hsr.le
    apply add_nonneg _ htail
    apply div_nonneg _ hbpm.le
    apply mul_nonneg hmax
    norm_num
  have hlen : (renderOfflineModel arrLen durationBeats bpm tail sr block sL sR).length
      = 2 * ((max arrLen durationBeats * 60 / bpm + tail) * sr).floor.toNat := by
    show (renderLoopGo block sL sR
        ((max arrLen durationBeats * 60 / bpm + tail) * sr).floor.toNat 0
        ((max arrLen durationBeats * 60 / bpm + tail) * sr).floor.toNat).length = _
    exact renderLoopGo_length block sL sR hb _ 0 _ (le_refl _)
  refine ⟨hlen, ?_, ?_⟩
  · have h1 : ((((max arrLen durationBeats * 60 / bpm + tail) * sr).floor.toNat : ℤ))
        = ((max arrLen durationBeats * 60 / bpm + tail) * sr).floor :=
      Int.toNat_of_nonneg (Int.floor_nonneg.mpr hx0)
    rw [h1]
    have hfl : ((max arrLen durationBeats * 60 / bpm + tail) * sr).floor
        = ⌊(max arrLen durationBeats * 60 / bpm + tail) * sr⌋ := rfl
    rw [hfl]
    have h2 := Int.ceil_le_floor_add_one ((max arrLen durationBeats * 60 / bpm + tail) * sr)
    have h3 := Int.floor_le_ceil ((max arrLen durationBeats * 60 / bpm + tail) * sr)
    have hb2 : (1 : ℤ) ≤ (block : ℤ) := by exact_mod_cast hb
    omega
  · intro h0
    rw [hlen, h0, max_eq_right hdur]

/-- Witness for `schedule_sort_stable_code_priority` at a one-event batch. -/
theorem schedule_sort_stable_code_priority_witness :
    scheduleFromJson [⟨1, "note_off", 0, 60, 0, 0, "n"⟩]
      = some ⟨[⟨1, .noteOff, 0, 60, 0, 0, "n"⟩], 1⟩
    ∧ (List.Pairwise (fun a b => schedLE a b = true)
        ([⟨1, .noteOff, 0, 60, 0, 0, "n"⟩] : List SchedEvent)
      ∧ ∃ evts, ([⟨1, "note_off", 0, 60, 0, 0, "n"⟩] : List RawEvent).mapM parseEvent
            = some evts
          ∧ ([⟨1, .noteOff, 0, 60, 0, 0, "n"⟩] : List SchedEvent).Perm evts
          ∧ ∀ e1 e2 : SchedEvent, [e1, e2].Sublist evts → schedLE e1 e2 = true →
              [e1, e2].Sublist [⟨1, .noteOff, 0, 60, 0, 0, "n"⟩]) := by
  have h : scheduleFromJson [⟨1, "note_off", 0, 60, 0, 0, "n"⟩]
      = some ⟨[⟨1, .noteOff, 0, 60, 0, 0, "n"⟩], 1⟩ := by
    have h1 : ([⟨1, "note_off", 0, 60, 0, 0, "n"⟩] : List RawEvent).mapM parseEvent
        = some [⟨1, .noteOff, 0, 60, 0, 0, "n"⟩] := rfl
    rw [scheduleFromJson, h1, Option.map_some']
    have h2 : ([⟨1, .noteOff, 0, 60, 0, 0, "n"⟩] : List SchedEvent).mergeSort schedLE
        = [⟨1, .noteOff, 0, 60, 0, 0, "n"⟩] := by
      simp [List.mergeSort]
    rw [h2]
    decide
  exact ⟨h, schedule_sort_stable_code_priority _ _ h⟩

/-- Witness for `render_offline_frame_count`: one beat at 60 bpm, sample
rate 4, block 2 renders 4 frames (8 interleaved samples). -/
theorem render_offline_frame_count_witness :
    ((1 : ℕ) ≤ 2 ∧ (0 : ℚ) < 60 ∧ (0 : ℚ) ≤ 0 ∧ (0 : ℚ) ≤ 1 ∧ (0 : ℚ) ≤ 0
      ∧ (0 : ℚ) < 4)
    ∧ ((renderOfflineModel 0 1 60 0 4 2 (fun _ => 0) (fun _ => 0)).length
        = 2 * ((max (0 : ℚ) 1 * 60 / 60 + 0) * 4).floor.toNat
      ∧ (⌈(max (0 : ℚ) 1 * 60 / 60 + 0) * 4⌉
          - (((max (0 : ℚ) 1 * 60 / 60 + 0) * 4).floor.toNat : ℤ)).natAbs ≤ 2
      ∧ ((0 : ℚ) = 0 →
          (renderOfflineModel 0 1 60 0 4 2 (fun _ => 0) (fun _ => 0)).length
            = 2 * (((1 : ℚ) * 60 / 60 + 0) * 4).floor.toNat)) :=
  ⟨⟨by norm_num, by norm_num, by norm_num, by norm_num, by norm_num, by norm_num⟩,
    render_offline_frame_count 0 1 60 0 4 2 (fun _ => 0) (fun _ => 0)
      (by norm_num) (by norm_num) (by norm_num) (by norm_num) (by norm_num)
      (by norm_num)⟩

/-- Events with non-negative beats keep their beat under clamping. -/
theorem effectiveBeat_eq (e : SchedEvent) (h : 0 ≤ e.beat) :
    effectiveBeat e = e.beat := by
  simp [effectiveBeat, not_lt.mpr h]

/-- One `dispatch` call on a clamped schedule suffix: the loop consumes
exactly the maximal prefix with `beat < end_beat`, delivering its members
with `beat ≥ start_beat` and a resolving node, and the cursor lands on the
rest. -/
theorem dispatchEvents_eq (resolves : String → Bool) (startB endB : ℚ) :
    ∀ (evts : List SchedEvent), (∀ e ∈ evts, 0 ≤ e.beat) →
      dispatchEvents resolves startB endB evts
        = ((evts.takeWhile fun e => decide (e.beat < endB)).filter
            (fun e => decide (startB ≤ e.beat) && resolves e.node_id),
           evts.dropWhile fun e => decide (e.beat < endB)) := by
  intro evts
  induction evts with
  | nil => intro _; rfl
  | cons e rest ih =>
    intro hnn
    have he : effectiveBeat e = e.beat :=
      effectiveBeat_eq e (hnn e (List.mem_cons_self e rest))
    have hrest := ih (fun x hx => hnn x (List.mem_cons_of_mem e hx))
    by_cases h : e.beat < endB
    · simp [dispatchEvents, he, h, hrest, List.takeWhile_cons, List.dropWhile_cons,
        List.filter_cons]
    · simp [dispatchEvents, he, h, List.takeWhile_cons, List.dropWhile_cons]

/-- On a beat-sorted list, `takeWhile (beat < b)` is the whole set of
events below `b` and `dropWhile` its complement. -/
theorem sorted_takeWhile_beat (b : ℚ) :
    ∀ (evts : List SchedEvent), evts.Pairwise (fun a c => a.beat ≤ c.beat) →
      (evts.takeWhile (fun e => decide (e.beat < b))
          = evts.filter (fun e => decide (e.beat < b))
        ∧ evts.dropWhile (fun e => decide (e.beat < b))
          = evts.filter (fun e => !decide (e.beat < b))) := by
  intro evts
  induction evts with
  | nil => intro _; exact ⟨rfl, rfl⟩
  | cons e rest ih =>
    intro hs
    rw [List.pairwise_cons] at hs
    obtain ⟨hall, hrest⟩ := hs
    obtain ⟨iht, ihd⟩ := ih hrest
    by_cases h : e.beat < b
    · constructor
      · simp [List.takeWhile_cons, List.filter_cons, h, iht]
      · simp [List.dropWhile_cons, List.filter_cons, h, ihd]
    · have hrestb : ∀ x ∈ rest, ¬ x.beat < b :=
        fun x hx hxb => h (lt_of_le_of_lt (hall x hx) hxb)
      constructor
      · rw [List.takeWhile_cons, if_neg (by simp [h])]
        symm
        rw [List.filter_eq_nil_iff]
        intro a ha
        rcases List.mem_cons.mp ha with rfl | ha2
        · simp [h]
        · simp [hrestb a ha2]
      · rw [List.dropWhile_cons, if_neg (by simp [h])]
        symm
        rw [List.filter_cons, if_pos (by simp [h])]
        congr 1
        rw [List.filter_eq_self]
        intro a ha
        simp [hrestb a ha]

/-- A `≤`-chain never descends below its start. -/
theorem chain_le_getLastD :
    ∀ (bs : List ℚ) (a : ℚ), List.Chain (· ≤ ·) a bs → a ≤ bs.getLastD a := by
  intro bs
  induction bs with
  | nil => intro a _; simp
  | cons b bs ih =>
    intro a hch
    rw [List.chain_cons] at hch
    rw [List.getLastD_cons]
    exact le_trans hch.1 (ih b hch.2)

/-- On a beat-sorted list, the events below `L` split as those below `b`
followed by those in `[b, L)`. -/
theorem filter_lt_split (b L : ℚ) (hbL : b ≤ L) :
    ∀ (evts : List SchedEvent), evts.Pairwise (fun a c => a.beat ≤ c.beat) →
      evts.filter (fun e => decide (e.beat < b))
        ++ (evts.filter (fun e => !decide (e.beat < b))).filter
            (fun e => decide (e.beat < L))
        = evts.filter (fun e => decide (e.beat < L)) := by
  intro evts
  induction evts with
  | nil => intro _; rfl
  | cons e rest ih =>
    intro hs
    rw [List.pairwise_cons] at hs
    obtain ⟨hall, hrest⟩ := hs
    have ihr := ih hrest
    by_cases h1 : e.beat < b
    · have h2 : e.beat < L := lt_of_lt_of_le h1 hbL
      have e1 : (e :: rest).filter (fun x => decide (x.beat < b))
          = e :: rest.filter (fun x => decide (x.beat < b)) := by
        rw [List.filter_cons, if_pos (by simp [h1])]
      have e2 : (e :: rest).filter (fun x => !decide (x.beat < b))
          = rest.filter (fun x => !decide (x.beat < b)) := by
        rw [List.filter_cons, if_neg (by simp [h1])]
      have e3 : (e :: rest).filter (fun x => decide (x.beat < L))
          = e :: rest.filter (fun x => decide (x.beat < L)) := by
        rw [List.filter_cons, if_pos (by simp [h2])]
      rw [e1, e2, e3, List.cons_append, ihr]
    · have hrestb : ∀ x ∈ rest, ¬ x.beat < b :=
        fun x hx hxb => h1 (lt_of_le_of_lt (hall x hx) hxb)
      have hfb : rest.filter (fun e => decide (e.beat < b)) = [] := by
        rw [List.filter_eq_nil_iff]
        intro a ha
        simp [hrestb a ha]
      have hfnb : rest.filter (fun e => !decide (e.beat < b)) = rest := by
        rw [List.filter_eq_self]
        intro a ha
        simp [hrestb a ha]
      have e1 : (e :: rest).filter (fun x => decide (x.beat < b)) = [] := by
        rw [List.filter_cons, if_neg (by simp [h1]), hfb]
      have e2 : (e :: rest).filter (fun x => !decide (x.beat < b)) = e :: rest := by
        rw [List.filter_cons, if_pos (by simp [h1]), hfnb]
      rw [e1, e2, List.nil_append]

/-- Filtering `¬(beat < L)` absorbs an earlier `¬(beat < b)` filter when
`b ≤ L`. -/
theorem filter_not_lt_collapse (b L : ℚ) (hbL : b ≤ L) (evts : List SchedEvent) :
    (evts.filter (fun e => !decide (e.beat < b))).filter
        (fun e => !decide (e.beat < L))
      = evts.filter (fun e => !decide (e.beat < L)) := by
  rw [List.filter_filter]
  apply List.filter_congr
  intro x _
  by_cases hx : x.beat < b
  · have hxL : x.beat < L := lt_of_lt_of_le hx hbL
    simp [hx, hxL]
  · simp [hx]

/-- Invariant form of the block-dispatch run: from a sorted suffix all of
whose beats are at least the current start, a non-decreasing boundary
chain delivers exactly the events below the final boundary and leaves
exactly the rest. -/
theorem dispatchBlocks_spec (resolves : String → Bool) :
    ∀ (bs : List ℚ) (startB : ℚ) (evts : List SchedEvent),
      evts.Pairwise (fun a c => a.beat ≤ c.beat) →
      (∀ e ∈ evts, 0 ≤ e.beat) →
      (∀ e ∈ evts, resolves e.node_id = true) →
      (∀ e ∈ evts, startB ≤ e.beat) →
      List.Chain (· ≤ ·) startB bs →
      dispatchBlocks resolves startB bs evts
        = (evts.filter (fun e => decide (e.beat < bs.getLastD startB)),
           evts.filter (fun e => !decide (e.beat < bs.getLastD startB))) := by
  intro bs
  induction bs with
  | nil =>
    intro startB evts hsort hnn hres hge _
    have h1 : evts.filter (fun e => decide (e.beat < startB)) = [] := by
      rw [List.filter_eq_nil_iff]
      intro a ha
      simp [not_lt.mpr (hge a ha)]
    have h2 : evts.filter (fun e => !decide (e.beat < startB)) = evts := by
      rw [List.filter_eq_self]
      intro a ha
      simp [not_lt.mpr (hge a ha)]
    simp [dispatchBlocks, List.getLastD, h1, h2]
  | cons b bs ih =>
    intro startB evts hsort hnn hres hge hchain
    rw [List.chain_cons] at hchain
    obtain ⟨hsb, hchain2⟩ := hchain
    have hde := dispatchEvents_eq resolves startB b evts hnn
    obtain ⟨htw, hdw⟩ := sorted_takeWhile_beat b evts hsort
    have hfil : (evts.filter (fun e => decide (e.beat < b))).filter
        (fun e => decide (startB ≤ e.beat) && resolves e.node_id)
        = evts.filter (fun e => decide (e.beat < b)) := by
      rw [List.filter_eq_self]
      intro a ha
      have hmem := (List.mem_filter.mp ha).1
      simp [hge a hmem, hres a hmem]
    have hp : dispatchEvents resolves startB b evts
        = (evts.filter (fun e => decide (e.beat < b)),
           evts.filter (fun e => !decide (e.beat < b))) := by
      rw [hde, htw, hdw, hfil]
    have hsort2 : (evts.filter (fun e => !decide (e.beat < b))).Pairwise
        (fun a c => a.beat ≤ c.beat) := hsort.filter _
    have hsub : ∀ e ∈ evts.filter (fun e => !decide (e.beat < b)), e ∈ evts :=
      fun e he => (List.mem_filter.mp he).1
    have hnn2 : ∀ e ∈ evts.filter (fun e => !decide (e.beat < b)), 0 ≤ e.beat :=
      fun e he => hnn e (hsub e he)
    have hres2 : ∀ e ∈ evts.filter (fun e => !decide (e.beat < b)),
        resolves e.node_id = true := fun e he => hres e (hsub e he)
    have hge2 : ∀ e ∈ evts.filter (fun e => !decide (e.beat < b)), b ≤ e.beat := by
      intro e he
      have h := (List.mem_filter.mp he).2
      simp at h
      exact h
    have hrec := ih b (evts.filter (fun e => !decide (e.beat < b)))
      hsort2 hnn2 hres2 hge2 hchain2
    have hbL : b ≤ bs.getLastD b := chain_le_getLastD bs b hchain2
    have hstep : dispatchBlocks resolves startB (b :: bs) evts
        = ((dispatchEvents resolves startB b evts).1
            ++ (dispatchBlocks resolves b bs
                (dispatchEvents resolves startB b evts).2).1,
           (dispatchBlocks resolves b bs
                (dispatchEvents resolves startB b evts).2).2) := rfl
    rw [hstep, hp]
    show (evts.filter (fun e => decide (e.beat < b))
        ++ (dispatchBlocks resolves b bs
            (evts.filter (fun e => !decide (e.beat < b)))).1,
        (dispatchBlocks resolves b bs
            (evts.filter (fun e => !decide (e.beat < b)))).2) = _
    rw [hrec, List.getLastD_cons]
    refine Prod.ext ?_ ?_
    · show evts.filter (fun e => decide (e.beat < b))
        ++ (evts.filter (fun e => !decide (e.beat < b))).filter
            (fun e => decide (e.beat < bs.getLastD b))
        = evts.filter (fun e => decide (e.beat < bs.getLastD b))
      exact filter_lt_split b (bs.getLastD b) hbL evts hsort
    · show (evts.filter (fun e => !decide (e.beat < b))).filter
          (fun e => !decide (e.beat < bs.getLastD b))
        = evts.filter (fun e => !decide (e.beat < bs.getLastD b))
      exact filter_not_lt_collapse b (bs.getLastD b) hbL evts

/-- C1: for a freshly installed schedule (cursor at the first event,
beats clamped non-negative and sorted with the schedule's tie-breaking
order) and any non-decreasing block boundaries `0 ≤ b₁ ≤ … ≤ bₙ`, the
dispatch calls over `[bᵢ₋₁, bᵢ)` deliver exactly the events with
`beat < bₙ` — the delivered list *equals* that filter of the schedule, so
each event is delivered exactly once in schedule order — provided every
event's node id resolves in the graph; the delivered sequence is sorted by
`(beat, type-priority)` like the schedule. -/
theorem dispatch_blocks_deliver_exactly (resolves : String → Bool)
    (evts : List SchedEvent) (bs : List ℚ)
    (hsort : evts.Pairwise (fun a b => schedLE a b = true))
    (hnn : ∀ e ∈ evts, 0 ≤ e.beat)
    (hres : ∀ e ∈ evts, resolves e.node_id = true)
    (hchain : List.Chain (· ≤ ·) 0 bs) :
    (dispatchBlocks resolves 0 bs evts).1
      = evts.filter (fun e => decide (e.beat < bs.getLastD 0))
    ∧ ((dispatchBlocks resolves 0 bs evts).1).Pairwise
        (fun a b => schedLE a b = true) := by
  have hbeat : evts.Pairwise (fun a c => a.beat ≤ c.beat) := by
    refine hsort.imp ?_
    intro a c h
    rw [schedLE_iff] at h
    rcases h with h | ⟨h, _⟩
    · exact h.le
    · exact h.le
  have h := dispatchBlocks_spec resolves bs 0 evts hbeat hnn hres hnn hchain
  constructor
  · rw [h]
  · rw [h]
    exact hsort.filter _

/-- Witness for `dispatch_blocks_deliver_exactly`: three events at beats
0, 1, 3 dispatched over blocks `[0,1)` and `[1,2)` deliver exactly the two
events below beat 2, once each, in order. -/
theorem dispatch_blocks_deliver_exactly_witness :
    (([⟨0, .noteOn, 0, 60, 100, 0, "s"⟩, ⟨1, .noteOff, 0, 60, 0, 0, "s"⟩,
        ⟨3, .noteOn, 0, 62, 90, 0, "s"⟩] : List SchedEvent).Pairwise
        (fun a b => schedLE a b = true)
      ∧ (∀ e ∈ ([⟨0, .noteOn, 0, 60, 100, 0, "s"⟩, ⟨1, .noteOff, 0, 60, 0, 0, "s"⟩,
          ⟨3, .noteOn, 0, 62, 90, 0, "s"⟩] : List SchedEvent), (0 : ℚ) ≤ e.beat)
      ∧ (∀ e ∈ ([⟨0, .noteOn, 0, 60, 100, 0, "s"⟩, ⟨1, .noteOff, 0, 60, 0, 0, "s"⟩,
          ⟨3, .noteOn, 0, 62, 90, 0, "s"⟩] : List SchedEvent),
          (fun _ => true) e.node_id = true)
      ∧ List.Chain (· ≤ ·) (0 : ℚ) [1, 2])
    ∧ ((dispatchBlocks (fun _ => true) 0 [1, 2]
          [⟨0, .noteOn, 0, 60, 100, 0, "s"⟩, ⟨1, .noteOff, 0, 60, 0, 0, "s"⟩,
            ⟨3, .noteOn, 0, 62, 90, 0, "s"⟩]).1
        = ([⟨0, .noteOn, 0, 60, 100, 0, "s"⟩, ⟨1, .noteOff, 0, 60, 0, 0, "s"⟩,
            ⟨3, .noteOn, 0, 62, 90, 0, "s"⟩] : List SchedEvent).filter
            (fun e => decide (e.beat < ([1, 2] : List ℚ).getLastD 0))
      ∧ ((dispatchBlocks (fun _ => true) 0 [1, 2]
          [⟨0, .noteOn, 0, 60, 100, 0, "s"⟩, ⟨1, .noteOff, 0, 60, 0, 0, "s"⟩,
            ⟨3, .noteOn, 0, 62, 90, 0, "s"⟩]).1).Pairwise
          (fun a b => schedLE a b = true)) :=
  ⟨⟨by decide, by decide, by decide, by norm_num [List.chain_cons]⟩,
    dispatch_blocks_deliver_exactly (fun _ => true)
      [⟨0, .noteOn, 0, 60, 100, 0, "s"⟩, ⟨1, .noteOff, 0, 60, 0, 0, "s"⟩,
        ⟨3, .noteOn, 0, 62, 90, 0, "s"⟩] [1, 2]
      (by decide) (by decide) (by decide) (by norm_num [List.chain_cons])⟩
